import Mathlib

/-!
Verification of the connectwise-config-exporter record extractor
(src/connectwise-export-formatter/original.py).

The Python source is shallowly embedded below.  Strings are modelled by
Lean `String` (a list of characters), Python `str.strip()` by `pyStrip`
(Python strips the ASCII whitespace characters space, tab, newline,
carriage return, vertical tab and form feed; the additional Unicode
whitespace Python would also strip plays no role in any claim), decoded
JSON values by the inductive `JsonValue`, and the line-by-line state of
`process_file` by `ExtState`.  Each definition cites the Python lines it
embeds.
-/

namespace ConnectwiseExporter

/-- Python whitespace for `str.strip()` (ASCII part). -/
def isPySpace (c : Char) : Bool :=
  c = ' ' || c = '\t' || c = '\n' || c = '\r' || c = '\x0b' || c = '\x0c'

/-- `str.strip()` on a character list: drop whitespace from both ends. -/
def pyStripList (cs : List Char) : List Char :=
  ((cs.dropWhile isPySpace).reverse.dropWhile isPySpace).reverse

/-- `str.strip()` (original.py line 191, 227). -/
def pyStrip (s : String) : String := ⟨pyStripList s.data⟩

/-- `line.replace('\\"', '')` (original.py line 165): delete every
occurrence of the two-character sequence backslash, double quote,
scanning left to right without rescanning, exactly as `str.replace`. -/
def removeEscapedQuotes : List Char → List Char
  | [] => []
  | [c] => [c]
  | c1 :: c2 :: cs =>
    if c1 = '\\' ∧ c2 = '\"' then removeEscapedQuotes cs
    else c1 :: removeEscapedQuotes (c2 :: cs)

/-- Worker for `re.sub(r'"[^"]*"', '', clean)` (original.py line 168).
The state `none` means we are outside a quoted span; `some buf` means a
double quote was seen and `buf` holds, reversed, that quote and the
characters after it.  When a closing quote arrives the whole span is
dropped; if the input ends with the span still open the regex would not
have matched, so the pending characters are restored verbatim. -/
def stripQuotedGo : List Char → Option (List Char) → List Char
  | [], none => []
  | [], some buf => buf.reverse
  | c :: cs, none =>
    if c = '\"' then stripQuotedGo cs (some [c]) else c :: stripQuotedGo cs none
  | c :: cs, some buf =>
    if c = '\"' then stripQuotedGo cs none else stripQuotedGo cs (some (c :: buf))

/-- `re.sub(r'"[^"]*"', '', clean)` (original.py line 168): remove every
maximal `"..."` span; an unterminated trailing quote is kept. -/
def stripQuoted (cs : List Char) : List Char := stripQuotedGo cs none

/-- The cleaned text of a line: escaped quotes removed, then quoted
spans removed (original.py lines 165-168). -/
def cleanedLine (line : String) : List Char :=
  stripQuoted (removeEscapedQuotes line.data)

/-- `open_count - close_count` on a cleaned line (original.py lines 170-172). -/
def braceDelta (cs : List Char) : Int :=
  (cs.count '\x7b' : Int) - (cs.count '\x7d' : Int)

/-- `count_braces_ignoring_strings` (original.py lines 159-172): returns
`(net_change, has_open_brace)`. -/
def count_braces_ignoring_strings (line : String) : Int × Bool :=
  let clean := cleanedLine line
  (braceDelta clean, decide ('\x7b' ∈ clean))

/-- Characters kept by `re.sub(r'[^\w\s-]', '', ...)` (original.py line 23):
word characters, whitespace, hyphen.  Python `\w` additionally matches
further Unicode word characters; the ASCII reading suffices for every
claim considered here. -/
def keepChar (c : Char) : Bool :=
  c.isAlphanum || c = '_' || isPySpace c || c = '-'

/-- `clean_filename` (original.py lines 21-24): `"Untitled"` for falsy
(empty) input, otherwise sanitize, strip, truncate to 100 characters. -/
def clean_filename (text : String) : String :=
  if text = "" then "Untitled"
  else ⟨(pyStripList (text.data.filter keepChar)).take 100⟩

/-- Decoded JSON values as produced by `json.loads`.  Numbers are
modelled by integers: no claim depends on non-integral numerics. -/
inductive JsonValue where
  | null
  | bool (b : Bool)
  | num (n : Int)
  | str (s : String)
  | arr (xs : List JsonValue)
  | obj (fields : List (String × JsonValue))

/-- Dictionary lookup on a decoded object (`json.loads` keeps keys
unique, the later duplicate winning, so an association-list lookup is
faithful). -/
def lookupField : List (String × JsonValue) → String → Option JsonValue
  | [], _ => none
  | (k2, v) :: rest, k => if k2 = k then some v else lookupField rest k

/-- Python truthiness of a decoded JSON value (used by
`'name' in data and data['name']`, original.py line 54). -/
def pyTruthy : JsonValue → Bool
  | .null => false
  | .bool b => b
  | .num n => decide (n ≠ 0)
  | .str s => decide (s ≠ "")
  | .arr xs => !xs.isEmpty
  | .obj fs => !fs.isEmpty

/-- Python `len` on a decoded JSON value: defined for strings, arrays
and objects; `none` models the `TypeError` raised on other values. -/
def pyLen : JsonValue → Option Nat
  | .str s => some s.length
  | .arr xs => some xs.length
  | .obj fs => some fs.length
  | _ => none

/-- `is_valid_record` (original.py lines 41-61).  `some b` is a normal
return of `b`; `none` models the `TypeError` raised at line 56 when the
`questions` field is present but its value has no `len`.  `has_name`,
`has_company` and `has_questions` are computed in source order; only the
third can raise. -/
def is_valid_record : JsonValue → Option Bool
  | .obj fs =>
    if fs.isEmpty then some false
    else
      let has_name := match lookupField fs "name" with
        | some x => pyTruthy x
        | none => false
      let has_company := (lookupField fs "company").isSome
      match lookupField fs "questions" with
      | none => some (has_name || (has_company && false))
      | some q =>
        match pyLen q with
        | none => none
        | some n => some (has_name || (has_company && decide (0 < n)))
  | _ => some false

/-- How one closed candidate buffer resolves inside `process_file`. -/
inductive RecordOutcome where
  | generated
  | renderFailed
  | invalidSkipped
  | decodeFailed
deriving DecidableEq

/-- The per-record processing boundary, original.py lines 231-258.  The
`try` block covers decode, validation and rendering but its only handler
is `except json.JSONDecodeError`; `generate_pdf` (lines 63-157) catches
every exception internally and returns a boolean.  `decoded = none`
models a `json.JSONDecodeError` from `json.loads`; `.error` models an
exception that escapes `process_file` (and hence the whole run). -/
def handleClosedBuffer (decoded : Option JsonValue) (renderOk : Bool) :
    Except String RecordOutcome :=
  match decoded with
  | none => .ok .decodeFailed
  | some v =>
    match is_valid_record v with
    | none => .error "TypeError"
    | some true => .ok (if renderOk then .generated else .renderFailed)
    | some false => .ok .invalidSkipped

/-- The n-th filename probed for a sanitized title (original.py lines
238-244): `safe.pdf`, then `safe_1.pdf`, `safe_2.pdf`, ... -/
def fnameCandidate (safe : String) : Nat → String
  | 0 => safe ++ ".pdf"
  | n + 1 => safe ++ "_" ++ toString (n + 1) ++ ".pdf"

/-- The collision loop of original.py lines 241-244, probing candidates
from index `n` on.  `existing` is the set of names already present in
the output directory; the fuel bounds the probe count (the Python loop
terminates because a directory holds finitely many files). -/
def allocateAux (existing : List String) (safe : String) :
    Nat → Nat → Option String
  | 0, _ => none
  | fuel + 1, n =>
    let c := fnameCandidate safe n
    if c ∈ existing then allocateAux existing safe fuel (n + 1) else some c

/-- Filename allocation for one record (original.py lines 237-246). -/
def allocate (existing : List String) (safe : String) : Option String :=
  allocateAux existing safe (existing.length + 1) 0

/-- The mutable state of the `process_file` loop (original.py lines
180-186): `buffer`, `brace_balance`, `in_json`, `potential_title`,
`lines_read`. -/
structure ExtState where
  buffer : List String
  braceBalance : Int
  inJson : Bool
  potentialTitle : String
  linesRead : Nat
deriving DecidableEq

/-- `"".join(buffer)` over newline-terminated lines, modulo the trailing
newline which the subsequent `.strip()` removes anyway: lines are stored
without their terminator and joined with a newline. -/
def joinLines : List String → String
  | [] => ""
  | [l] => l
  | l :: ls => l ++ "\n" ++ joinLines ls

/-- `if full_str.endswith(','): full_str = full_str[:-1]`
(original.py line 229). -/
def stripTrailingComma (s : String) : String :=
  if s.data.getLast? = some ',' then ⟨s.data.dropLast⟩ else s

/-- One iteration of the `for line in f` loop of `process_file`
(original.py lines 189-261), restricted to the extraction state machine.
Returns the new state and the candidate records emitted to the decode
step: each emission is the pair `(potential_title, full_str)` in effect
at original.py lines 232/248.  Decode, validation and rendering are
modelled separately (`handleClosedBuffer`); they do not feed back into
the extraction state — in the source the only write after the `try`
block is the unconditional `potential_title = "Untitled"` reset, mirrored
here in the closing branch. -/
def extractStep (st : ExtState) (line : String) : ExtState × List (String × String) :=
  let st1 : ExtState := { st with linesRead := st.linesRead + 1 }
  let stripped := pyStrip line
  if stripped = "" then (st1, [])
  else
    let scan := count_braces_ignoring_strings line
    if st.inJson then
      let buf := st.buffer ++ [line]
      let bal := st.braceBalance + scan.1
      if bal ≤ 0 then
        ({ st1 with inJson := false, buffer := buf, braceBalance := bal,
                    potentialTitle := "Untitled" },
         [(st.potentialTitle, stripTrailingComma (pyStrip (joinLines buf)))])
      else
        ({ st1 with buffer := buf, braceBalance := bal }, [])
    else
      if scan.2 then
        ({ st1 with inJson := true, braceBalance := scan.1, buffer := [line] }, [])
      else
        if '\x7b' ∉ stripped.data ∧ '\x7d' ∉ stripped.data ∧ stripped.length < 150 then
          ({ st1 with potentialTitle := stripped }, [])
        else (st1, [])

/-- Run the extraction loop over a list of input lines, collecting all
emitted `(title, candidate text)` pairs in order. -/
def extractAux : ExtState → List String → ExtState × List (String × String)
  | st, [] => (st, [])
  | st, l :: ls =>
    let r1 := extractStep st l
    let r2 := extractAux r1.1 ls
    (r2.1, r1.2 ++ r2.2)

/-- Initial loop state (original.py lines 180-183). -/
def initState : ExtState :=
  { buffer := [], braceBalance := 0, inJson := false,
    potentialTitle := "Untitled", linesRead := 0 }

/-- The ordered candidate records a full run hands to the decode step. -/
def runExtract (lines : List String) : List (String × String) :=
  (extractAux initState lines).2

/-- The extraction state after a full run. -/
def runExtractState (lines : List String) : ExtState :=
  (extractAux initState lines).1

/-- Modelled from the spec (§3 ValidationVerdict), for comparison with
`is_valid_record`: true iff the record is a non-empty mapping and (it
has a non-empty `name` field, or it has a `company` field and a
non-empty `questions` sequence — a sequence being a JSON array). -/
def specIsValid : JsonValue → Bool
  | .obj fs =>
    !fs.isEmpty &&
      ((match lookupField fs "name" with
        | some v => pyTruthy v
        | none => false) ||
       ((lookupField fs "company").isSome &&
        (match lookupField fs "questions" with
         | some (.arr xs) => !xs.isEmpty
         | _ => false)))
  | _ => false

/-- Decoded form of the spec example with a company and an empty
questions array. -/
def exampleEmptyQuestions : JsonValue :=
  .obj [("company", .obj [("name", .str "Acme")]), ("questions", .arr [])]

/-- Decoded form of the spec example with a company and one question. -/
def exampleOneQuestion : JsonValue :=
  .obj [("company", .obj [("name", .str "Acme")]),
        ("questions", .arr [.obj [("question", .str "Q"), ("answer", .str "")]])]

/-- A decoded object whose `questions` field is a non-empty mapping:
`len` is 1 in Python, so `is_valid_record` accepts it although the field
is not a sequence. -/
def exampleDictQuestions : JsonValue :=
  .obj [("company", .null), ("questions", .obj [("a", .null)])]

/-! ### Helper lemmas about the scanner -/

theorem stripQuotedGo_append_no_quote (p r : List Char) (h : '\"' ∉ p) :
    stripQuotedGo (p ++ r) none = p ++ stripQuotedGo r none := by
  induction p with
  | nil => rfl
  | cons c cs ih =>
    have hc : ¬ c = '\"' := fun hc => h (by simp [hc])
    have hcs : '\"' ∉ cs := fun hm => h (List.mem_cons_of_mem _ hm)
    simp [stripQuotedGo, hc, ih hcs]

theorem stripQuotedGo_some_close (s t buf : List Char) (h : '\"' ∉ s) :
    stripQuotedGo (s ++ '\"' :: t) (some buf) = stripQuotedGo t none := by
  induction s generalizing buf with
  | nil => simp [stripQuotedGo]
  | cons c cs ih =>
    have hc : ¬ c = '\"' := fun hc => h (by simp [hc])
    have hcs : '\"' ∉ cs := fun hm => h (List.mem_cons_of_mem _ hm)
    simp [stripQuotedGo, hc, ih _ hcs]

theorem stripQuotedGo_some_open (t buf : List Char) (h : '\"' ∉ t) :
    stripQuotedGo t (some buf) = buf.reverse ++ t := by
  induction t generalizing buf with
  | nil => simp [stripQuotedGo]
  | cons c cs ih =>
    have hc : ¬ c = '\"' := fun hc => h (by simp [hc])
    have hcs : '\"' ∉ cs := fun hm => h (List.mem_cons_of_mem _ hm)
    simp [stripQuotedGo, hc, ih (c :: buf) hcs]

theorem stripQuoted_span (s t : List Char) (h : '\"' ∉ s) :
    stripQuoted ('\"' :: (s ++ '\"' :: t)) = stripQuoted t := by
  simp [stripQuoted, stripQuotedGo, stripQuotedGo_some_close s t _ h]

theorem stripQuotedGo_parity (p : List Char) : ∀ r : List Char,
    (p.count '\"' % 2 = 0 →
      stripQuotedGo (p ++ r) none = stripQuotedGo p none ++ stripQuotedGo r none) ∧
    (∀ buf, p.count '\"' % 2 = 1 →
      stripQuotedGo (p ++ r) (some buf) =
        stripQuotedGo p (some buf) ++ stripQuotedGo r none) := by
  induction p with
  | nil =>
    intro r
    refine ⟨fun _ => by simp [stripQuotedGo], fun buf h => by simp at h⟩
  | cons c cs ih =>
    intro r
    by_cases hc : c = '\"'
    · subst hc
      have hcount : ('\"' :: cs).count '\"' = cs.count '\"' + 1 := by
        simp [List.count_cons]
      constructor
      · intro h
        have hodd : cs.count '\"' % 2 = 1 := by omega
        simp only [List.cons_append, stripQuotedGo, if_pos rfl]
        exact (ih r).2 _ hodd
      · intro buf h
        have heven : cs.count '\"' % 2 = 0 := by
          rw [hcount] at h; omega
        simp only [List.cons_append, stripQuotedGo, if_pos rfl]
        exact (ih r).1 heven
    · have hcount : (c :: cs).count '\"' = cs.count '\"' := by
        simp [List.count_cons, hc]
      constructor
      · intro h
        rw [hcount] at h
        simp only [List.cons_append, stripQuotedGo, if_neg hc, List.append_eq]
        rw [(ih r).1 h]
      · intro buf h
        rw [hcount] at h
        simp only [List.cons_append, stripQuotedGo, if_neg hc, List.append_eq]
        rw [(ih r).2 (c :: buf) h]

theorem mem_stripQuotedGo (c : Char) : ∀ cs : List Char,
    (c ∈ stripQuotedGo cs none → c ∈ cs) ∧
    (∀ buf, c ∈ stripQuotedGo cs (some buf) → c ∈ cs ∨ c ∈ buf) := by
  intro cs
  induction cs with
  | nil =>
    constructor
    · intro h; simp [stripQuotedGo] at h
    · intro buf h
      simp [stripQuotedGo] at h
      exact Or.inr h
  | cons a cs ih =>
    by_cases ha : a = '\"'
    · subst ha
      constructor
      · intro h
        simp only [stripQuotedGo, if_pos rfl] at h
        rcases (ih.2 _ h) with h1 | h1
        · exact List.mem_cons_of_mem _ h1
        · simp at h1; simp [h1]
      · intro buf h
        simp only [stripQuotedGo, if_pos rfl] at h
        exact Or.inl (List.mem_cons_of_mem _ (ih.1 h))
    · constructor
      · intro h
        simp only [stripQuotedGo, if_neg ha] at h
        rw [List.mem_cons] at h
        rcases h with h | h
        · simp [h]
        · exact List.mem_cons_of_mem _ (ih.1 h)
      · intro buf h
        simp only [stripQuotedGo, if_neg ha] at h
        rcases ih.2 (a :: buf) h with h1 | h1
        · exact Or.inl (List.mem_cons_of_mem _ h1)
        · rw [List.mem_cons] at h1
          rcases h1 with h1 | h1
          · exact Or.inl (by simp [h1])
          · exact Or.inr h1

theorem mem_removeEscapedQuotes (c : Char) :
    ∀ cs : List Char, c ∈ removeEscapedQuotes cs → c ∈ cs := by
  intro cs
  induction cs using removeEscapedQuotes.induct with
  | case1 => intro h; simp [removeEscapedQuotes] at h
  | case2 d => intro h; simpa [removeEscapedQuotes] using h
  | case3 c1 c2 cs hpair ih =>
    intro h
    rw [removeEscapedQuotes, if_pos hpair] at h
    exact List.mem_cons_of_mem _ (List.mem_cons_of_mem _ (ih h))
  | case4 c1 c2 cs hpair ih =>
    intro h
    rw [removeEscapedQuotes, if_neg hpair, List.mem_cons] at h
    rcases h with h | h
    · simp [h]
    · exact List.mem_cons_of_mem _ (ih h)

theorem mem_dropWhile_of_mem {p : Char → Bool} {c : Char} (hc : p c = false) :
    ∀ l : List Char, c ∈ l → c ∈ l.dropWhile p := by
  intro l
  induction l with
  | nil => intro h; exact h
  | cons a l ih =>
    intro h
    by_cases ha : p a
    · rw [List.dropWhile_cons_of_pos ha]
      rw [List.mem_cons] at h
      rcases h with h | h
      · exact absurd ha (by simp [h ▸ hc])
      · exact ih h
    · rwa [List.dropWhile_cons_of_neg ha]

theorem mem_pyStripList_of_mem {c : Char} (hc : isPySpace c = false)
    {cs : List Char} (h : c ∈ cs) : c ∈ pyStripList cs := by
  unfold pyStripList
  rw [List.mem_reverse]
  exact mem_dropWhile_of_mem hc _ (by
    rw [List.mem_reverse]
    exact mem_dropWhile_of_mem hc _ h)

theorem mem_of_mem_pyStripList {c : Char} {cs : List Char}
    (h : c ∈ pyStripList cs) : c ∈ cs := by
  unfold pyStripList at h
  rw [List.mem_reverse] at h
  have h2 := (List.dropWhile_sublist _).mem h
  rw [List.mem_reverse] at h2
  exact (List.dropWhile_sublist _).mem h2

theorem hasOpen_false_of_no_brace (l : String)
    (h : '\x7b' ∉ (pyStrip l).data) :
    (count_braces_ignoring_strings l).2 = false := by
  by_contra hcon
  have htrue : (count_braces_ignoring_strings l).2 = true := by
    revert hcon; cases (count_braces_ignoring_strings l).2 <;> simp
  have hmem : '\x7b' ∈ cleanedLine l := by
    simpa [count_braces_ignoring_strings] using htrue
  have h1 : '\x7b' ∈ removeEscapedQuotes l.data :=
    (mem_stripQuotedGo _ _).1 hmem
  have h2 : '\x7b' ∈ l.data := mem_removeEscapedQuotes _ _ h1
  exact h (mem_pyStripList_of_mem (by decide) h2)

/-! ### Helper lemmas about the extractor step -/

theorem extractStep_blank (st : ExtState) (line : String)
    (h : pyStrip line = "") :
    extractStep st line = ({ st with linesRead := st.linesRead + 1 }, []) := by
  simp [extractStep, h]

theorem extractStep_open (st : ExtState) (line : String)
    (h1 : st.inJson = false) (h2 : pyStrip line ≠ "")
    (h3 : (count_braces_ignoring_strings line).2 = true) :
    extractStep st line =
      ({ st with inJson := true,
                 braceBalance := (count_braces_ignoring_strings line).1,
                 buffer := [line], linesRead := st.linesRead + 1 }, []) := by
  simp [extractStep, h1, h2, h3]

theorem extractStep_title (st : ExtState) (line : String)
    (h1 : st.inJson = false) (h2 : pyStrip line ≠ "")
    (h3 : '\x7b' ∉ (pyStrip line).data) (h4 : '\x7d' ∉ (pyStrip line).data)
    (h5 : (pyStrip line).length < 150) :
    extractStep st line =
      ({ st with potentialTitle := pyStrip line,
                 linesRead := st.linesRead + 1 }, []) := by
  have hopen := hasOpen_false_of_no_brace line h3
  simp [extractStep, h1, h2, h3, h4, h5, hopen]

theorem extractStep_noise (st : ExtState) (line : String)
    (h1 : st.inJson = false) (h2 : pyStrip line ≠ "")
    (h3 : (count_braces_ignoring_strings line).2 = false)
    (h4 : ¬ ('\x7b' ∉ (pyStrip line).data ∧ '\x7d' ∉ (pyStrip line).data ∧
            (pyStrip line).length < 150)) :
    extractStep st line = ({ st with linesRead := st.linesRead + 1 }, []) := by
  simp only [extractStep, h1, h3, if_neg h2, if_neg h4, Bool.false_eq_true,
    if_false]

theorem extractStep_accumulate (st : ExtState) (line : String)
    (h1 : st.inJson = true) (h2 : pyStrip line ≠ "")
    (h3 : 0 < st.braceBalance + (count_braces_ignoring_strings line).1) :
    extractStep st line =
      ({ st with buffer := st.buffer ++ [line],
                 braceBalance := st.braceBalance + (count_braces_ignoring_strings line).1,
                 linesRead := st.linesRead + 1 }, []) := by
  have hgt : ¬ (st.braceBalance + (count_braces_ignoring_strings line).1 ≤ 0) := by
    omega
  simp [extractStep, h1, h2, hgt]

theorem extractStep_close (st : ExtState) (line : String)
    (h1 : st.inJson = true) (h2 : pyStrip line ≠ "")
    (h3 : st.braceBalance + (count_braces_ignoring_strings line).1 ≤ 0) :
    extractStep st line =
      ({ st with inJson := false,
                 buffer := st.buffer ++ [line],
                 braceBalance := st.braceBalance + (count_braces_ignoring_strings line).1,
                 potentialTitle := "Untitled",
                 linesRead := st.linesRead + 1 },
       [(st.potentialTitle,
         stripTrailingComma (pyStrip (joinLines (st.buffer ++ [line]))))]) := by
  simp [extractStep, h1, h2, h3]

theorem extractStep_linesRead (st : ExtState) (n : Nat) (line : String) :
    extractStep { st with linesRead := n } line =
      ({ (extractStep st line).1 with linesRead := n + 1 },
       (extractStep st line).2) := by
  obtain ⟨buf, bal, inj, title, lr⟩ := st
  by_cases hb : pyStrip line = ""
  · simp [extractStep, hb]
  · by_cases hj : inj
    · by_cases hle : bal + (count_braces_ignoring_strings line).1 ≤ 0
      · simp [extractStep, hb, hj, hle]
      · simp [extractStep, hb, hj, hle]
    · by_cases ho : (count_braces_ignoring_strings line).2
      · simp [extractStep, hb, hj, ho]
      · by_cases ht : '\x7b' ∉ (pyStrip line).data ∧ '\x7d' ∉ (pyStrip line).data ∧
            (pyStrip line).length < 150
        · simp [extractStep, hb, hj, ho, ht]
        · simp [extractStep, hb, hj, ho, ht]

theorem extractAux_linesRead (lines : List String) :
    ∀ (st : ExtState) (n : Nat),
      (extractAux { st with linesRead := n } lines).2 =
      (extractAux st lines).2 := by
  induction lines with
  | nil => intro st n; rfl
  | cons l ls ih =>
    intro st n
    simp only [extractAux]
    rw [extractStep_linesRead st n l]
    rw [ih ((extractStep st l).1) (n + 1)]

/-! ### Claim theorems -/

/-- C1 counterexample: on an input consisting of a title line, one
complete single-line JSON object (netBraceDelta 0), then a blank line,
the extractor emits zero records, not one: the close check
(original.py line 223) runs only in the accumulating branch, never on
the opening line itself, and the blank line is skipped by the
`if not stripped: continue` at line 193 before the accumulating branch
is reached, so the buffer is still open at end of input. -/
theorem c1_counterexample :
    runExtract ["Some title",
      "\x7b \"name\": \"X\", \"questions\": [\x7b\"question\":\"Q1\",\"answer\":\"A1\"\x7d] \x7d",
      ""] = [] ∧
    (runExtractState ["Some title",
      "\x7b \"name\": \"X\", \"questions\": [\x7b\"question\":\"Q1\",\"answer\":\"A1\"\x7d] \x7d",
      ""]).inJson = true := by
  exact ⟨by decide, by decide⟩

/-- C1 (amended): when a line with an opening brace is seen outside an
object, braceBalance starts at that line's own netBraceDelta and the
state enters ACCUMULATING with nothing emitted — even when that delta is
already ≤ 0; while ACCUMULATING, the buffer is closed (emitted to decode,
state returned to IDLE) the first time braceBalance ≤ 0 after adding a
subsequent non-blank line's delta.  The close check is never applied on
the opening line itself (and blank lines are skipped), so a single line
containing both the full open and close of the top-level object does not
close the buffer immediately, and the input title line / single-line
object / blank line emits zero records. -/
theorem c1_amended :
    (∀ (st : ExtState) (line : String), st.inJson = false → pyStrip line ≠ "" →
      (count_braces_ignoring_strings line).2 = true →
      (extractStep st line).1.inJson = true ∧
      (extractStep st line).1.braceBalance = (count_braces_ignoring_strings line).1 ∧
      (extractStep st line).2 = []) ∧
    (∀ (st : ExtState) (line : String), st.inJson = true → pyStrip line ≠ "" →
      st.braceBalance + (count_braces_ignoring_strings line).1 ≤ 0 →
      (extractStep st line).1.inJson = false ∧
      (extractStep st line).2 =
        [(st.potentialTitle,
          stripTrailingComma (pyStrip (joinLines (st.buffer ++ [line]))))]) ∧
    (∀ (st : ExtState) (line : String), st.inJson = true → pyStrip line ≠ "" →
      0 < st.braceBalance + (count_braces_ignoring_strings line).1 →
      (extractStep st line).1.inJson = true ∧ (extractStep st line).2 = []) ∧
    runExtract ["Some title",
      "\x7b \"name\": \"X\", \"questions\": [\x7b\"question\":\"Q1\",\"answer\":\"A1\"\x7d] \x7d",
      ""] = [] := by
  refine ⟨?_, ?_, ?_, by decide⟩
  · intro st line h1 h2 h3
    rw [extractStep_open st line h1 h2 h3]
    exact ⟨rfl, rfl, rfl⟩
  · intro st line h1 h2 h3
    rw [extractStep_close st line h1 h2 h3]
    exact ⟨rfl, rfl⟩
  · intro st line h1 h2 h3
    rw [extractStep_accumulate st line h1 h2 h3]
    exact ⟨h1, rfl⟩

/-- C1 witness: the amended transition facts evaluated at concrete
states: opening on a balanced single-line object, closing on a
subsequent line, accumulating on a non-closing line. -/
theorem c1_amended_witness :
    ((extractStep ⟨[], 0, false, "Untitled", 0⟩ "\x7b").1.inJson = true ∧
     (extractStep ⟨[], 0, false, "Untitled", 0⟩ "\x7b").1.braceBalance =
       (count_braces_ignoring_strings "\x7b").1 ∧
     (extractStep ⟨[], 0, false, "Untitled", 0⟩ "\x7b").2 = []) ∧
    ((extractStep ⟨["\x7b"], 1, true, "T", 1⟩ "\x7d").1.inJson = false ∧
     (extractStep ⟨["\x7b"], 1, true, "T", 1⟩ "\x7d").2 =
       [("T", stripTrailingComma (pyStrip (joinLines (["\x7b"] ++ ["\x7d"]))))]) ∧
    ((extractStep ⟨["\x7b"], 1, true, "T", 1⟩ "x").1.inJson = true ∧
     (extractStep ⟨["\x7b"], 1, true, "T", 1⟩ "x").2 = []) :=
  ⟨c1_amended.1 _ _ (by decide) (by decide) (by decide),
   c1_amended.2.1 _ _ (by decide) (by decide) (by decide),
   c1_amended.2.2.1 _ _ (by decide) (by decide) (by decide)⟩

/-- C3 counterexample: in the ACCUMULATING state a whitespace-only line
is not appended to the candidate buffer: after the lines of an opening
brace and a blank line, the buffer holds only the opening line — the
blank line was skipped by original.py line 193 before the accumulating
branch. -/
theorem c3_counterexample :
    (runExtractState ["\x7b", "   "]).inJson = true ∧
    (runExtractState ["\x7b", "   "]).buffer = ["\x7b"] ∧
    (runExtractState ["\x7b", "   "]).buffer ≠ ["\x7b", "   "] := by
  exact ⟨by decide, by decide, by decide⟩

/-- C3 (amended): blank and whitespace-only lines are skipped in every
state — no append, no balance change, no title change, no state change
(only the line counter advances); every non-blank line seen in
ACCUMULATING is appended to the candidate buffer and its netBraceDelta
added to braceBalance. -/
theorem c3_amended :
    (∀ (st : ExtState) (line : String), pyStrip line = "" →
      extractStep st line = ({ st with linesRead := st.linesRead + 1 }, [])) ∧
    (∀ (st : ExtState) (line : String), st.inJson = true → pyStrip line ≠ "" →
      (extractStep st line).1.buffer = st.buffer ++ [line] ∧
      (extractStep st line).1.braceBalance =
        st.braceBalance + (count_braces_ignoring_strings line).1) := by
  refine ⟨extractStep_blank, ?_⟩
  intro st line h1 h2
  by_cases h3 : st.braceBalance + (count_braces_ignoring_strings line).1 ≤ 0
  · rw [extractStep_close st line h1 h2 h3]
    exact ⟨rfl, rfl⟩
  · rw [extractStep_accumulate st line h1 h2 (by omega)]
    exact ⟨rfl, rfl⟩

/-- C3 witness: the amended facts at concrete states — a whitespace-only
line while accumulating leaves buffer, balance, mode and title untouched,
and a non-blank line is appended with its delta added. -/
theorem c3_amended_witness :
    extractStep ⟨["\x7b"], 1, true, "T", 2⟩ "   " =
      ({ (⟨["\x7b"], 1, true, "T", 2⟩ : ExtState) with linesRead := 3 }, []) ∧
    ((extractStep ⟨["\x7b"], 1, true, "T", 2⟩ "x\x7d").1.buffer = ["\x7b", "x\x7d"] ∧
     (extractStep ⟨["\x7b"], 1, true, "T", 2⟩ "x\x7d").1.braceBalance =
       1 + (count_braces_ignoring_strings "x\x7d").1) :=
  ⟨c3_amended.1 _ _ (by decide),
   c3_amended.2 _ _ (by decide) (by decide)⟩

/-- C8: the pending-title invariant, transition by transition.  In IDLE a
non-blank line whose stripped text has no brace character and length
below 150 becomes the new PendingTitle (the stripped text); a blank
line, a line containing a brace character, or a line of stripped length
at least 150 leaves PendingTitle unchanged; while ACCUMULATING a
non-closing line leaves it unchanged; and the closing transition —
which finalizes the record whatever the later decode/validate outcome,
since original.py line 261 runs unconditionally after the try block —
resets PendingTitle to the sentinel "Untitled". -/
theorem c8_title_invariant :
    (∀ (st : ExtState) (line : String), st.inJson = false → pyStrip line ≠ "" →
      '\x7b' ∉ (pyStrip line).data → '\x7d' ∉ (pyStrip line).data →
      (pyStrip line).length < 150 →
      (extractStep st line).1.potentialTitle = pyStrip line) ∧
    (∀ (st : ExtState) (line : String), pyStrip line = "" →
      (extractStep st line).1.potentialTitle = st.potentialTitle) ∧
    (∀ (st : ExtState) (line : String), st.inJson = false → pyStrip line ≠ "" →
      ('\x7b' ∈ (pyStrip line).data ∨ '\x7d' ∈ (pyStrip line).data ∨
        150 ≤ (pyStrip line).length) →
      (extractStep st line).1.potentialTitle = st.potentialTitle) ∧
    (∀ (st : ExtState) (line : String), st.inJson = true → pyStrip line ≠ "" →
      0 < st.braceBalance + (count_braces_ignoring_strings line).1 →
      (extractStep st line).1.potentialTitle = st.potentialTitle) ∧
    (∀ (st : ExtState) (line : String), st.inJson = true → pyStrip line ≠ "" →
      st.braceBalance + (count_braces_ignoring_strings line).1 ≤ 0 →
      (extractStep st line).1.potentialTitle = "Untitled") := by
  refine ⟨?_, ?_, ?_, ?_, ?_⟩
  · intro st line h1 h2 h3 h4 h5
    rw [extractStep_title st line h1 h2 h3 h4 h5]
  · intro st line h
    rw [extractStep_blank st line h]
  · intro st line h1 h2 h3
    by_cases ho : (count_braces_ignoring_strings line).2 = true
    · rw [extractStep_open st line h1 h2 ho]
    · rw [extractStep_noise st line h1 h2 (by revert ho; cases (count_braces_ignoring_strings line).2 <;> simp)
        (by rcases h3 with h | h | h <;> intro hcon <;> [exact hcon.1 h; exact hcon.2.1 h; omega])]
  · intro st line h1 h2 h3
    rw [extractStep_accumulate st line h1 h2 h3]
  · intro st line h1 h2 h3
    rw [extractStep_close st line h1 h2 h3]

/-- C8 witness: the five title transitions evaluated at concrete states
and lines: a qualifying header line, a blank line, a braced noise line,
a non-closing accumulating line and a closing line. -/
theorem c8_title_invariant_witness :
    (extractStep ⟨[], 0, false, "Untitled", 0⟩ " Server Room AP ").1.potentialTitle =
      pyStrip " Server Room AP " ∧
    (extractStep ⟨[], 0, false, "Old", 5⟩ "   ").1.potentialTitle = "Old" ∧
    (extractStep ⟨[], 0, false, "Old", 5⟩ "noise \x7d here").1.potentialTitle = "Old" ∧
    (extractStep ⟨["\x7b"], 1, true, "Old", 5⟩ "x").1.potentialTitle = "Old" ∧
    (extractStep ⟨["\x7b"], 1, true, "Old", 5⟩ "\x7d").1.potentialTitle = "Untitled" :=
  ⟨c8_title_invariant.1 _ _ (by decide) (by decide) (by decide) (by decide) (by decide),
   c8_title_invariant.2.1 _ _ (by decide),
   c8_title_invariant.2.2.1 _ _ (by decide) (by decide) (Or.inr (Or.inl (by decide))),
   c8_title_invariant.2.2.2.1 _ _ (by decide) (by decide) (by decide),
   c8_title_invariant.2.2.2.2 _ _ (by decide) (by decide) (by decide)⟩

/-- C9: extraction is deterministic and depends only on the input text:
the emitted sequence of (pending title, candidate record text) pairs
handed to the decode/validation step is a pure function of the line
list — in particular it is invariant under the only ambient piece of
loop state not reset between records, the `lines_read` counter, so two
runs over the same lines produce identical ordered emissions. -/
theorem c9_determinism :
    ∀ (lines : List String) (n m : Nat),
      (extractAux { initState with linesRead := n } lines).2 =
      (extractAux { initState with linesRead := m } lines).2 ∧
      runExtract lines = (extractAux { initState with linesRead := n } lines).2 := by
  intro lines n m
  constructor
  · rw [extractAux_linesRead lines initState n, extractAux_linesRead lines initState m]
  · rw [extractAux_linesRead lines initState n]
    rfl

/-- C2: the scanner first deletes every escaped-quote sequence, then
deletes every span between a double quote and the next double quote —
such a span is removed wholesale, so braces inside quoted strings never
contribute; netBraceDelta is the count of opening braces minus the count
of closing braces in the remaining text, and hasOpeningBrace holds iff
the remaining text contains at least one opening brace; the example line
with braces inside a quoted string yields netBraceDelta 0 and
hasOpeningBrace true. -/
theorem c2_scan_spec :
    (∀ s t : List Char, '\"' ∉ s →
      stripQuoted ('\"' :: (s ++ '\"' :: t)) = stripQuoted t) ∧
    (∀ line : String,
      (count_braces_ignoring_strings line).1 =
        ((cleanedLine line).count '\x7b' : Int) -
          ((cleanedLine line).count '\x7d' : Int) ∧
      ((count_braces_ignoring_strings line).2 = true ↔
        '\x7b' ∈ cleanedLine line) ∧
      cleanedLine line = stripQuoted (removeEscapedQuotes line.data)) ∧
    count_braces_ignoring_strings "\x7b\"a\": \"b\x7bc\x7dd\"\x7d" = (0, true) := by
  refine ⟨stripQuoted_span, fun line => ⟨rfl, ?_, rfl⟩, by decide⟩
  simp [count_braces_ignoring_strings]

/-- C2 witness: a quoted span containing both brace characters is
removed wholesale by the scanner. -/
theorem c2_scan_spec_witness :
    '\"' ∉ ['b', '\x7b', 'c', '\x7d', 'd'] ∧
    stripQuoted ('\"' :: (['b', '\x7b', 'c', '\x7d', 'd'] ++ '\"' :: ['\x7d'])) =
      stripQuoted ['\x7d'] :=
  ⟨by decide, c2_scan_spec.1 _ _ (by decide)⟩

/-- C10: on a line whose text after escaped-quote removal has an odd
number of double quotes — decomposed as an even-quoted part `p`, the
last (unpaired) quote, and a quote-free tail `t` — every brace in `t`
counts toward netBraceDelta and hasOpeningBrace: the cleaned text is
exactly the cleaned `p` followed by the unpaired quote and `t` verbatim.
Quoted spans are matched within the single line only; the scanner is a
pure per-line function, so no span carries over to the next line. -/
theorem c10_unterminated_quote :
    ∀ (line : String) (p t : List Char),
      removeEscapedQuotes line.data = p ++ '\"' :: t →
      p.count '\"' % 2 = 0 → '\"' ∉ t →
      cleanedLine line = stripQuoted p ++ '\"' :: t ∧
      (count_braces_ignoring_strings line).1 =
        braceDelta (stripQuoted p) + braceDelta t ∧
      ((count_braces_ignoring_strings line).2 = true ↔
        ('\x7b' ∈ stripQuoted p ∨ '\x7b' ∈ t)) := by
  intro line p t hdec hpar hnq
  have hstep : stripQuotedGo ('\"' :: t) none = stripQuotedGo t (some ['\"']) := by
    simp [stripQuotedGo]
  have hclean : cleanedLine line = stripQuoted p ++ '\"' :: t := by
    rw [cleanedLine, hdec, stripQuoted, (stripQuotedGo_parity p _).1 hpar, hstep,
      stripQuotedGo_some_open t _ hnq]
    rfl
  refine ⟨hclean, ?_, ?_⟩
  · show braceDelta (cleanedLine line) = _
    rw [hclean]
    simp only [braceDelta, List.count_append, List.count_cons]
    have hbo : ('\x7b' == '\"') = false := by decide
    have hbc : ('\x7d' == '\"') = false := by decide
    simp [hbo, hbc]
    omega
  · show decide ('\x7b' ∈ cleanedLine line) = true ↔ _
    rw [hclean]
    simp

/-- C10 witness: the line consisting of a letter, an unpaired quote,
a letter and an opening brace has that brace counted: delta 1 and
hasOpeningBrace true. -/
theorem c10_unterminated_quote_witness :
    removeEscapedQuotes ("a\"b\x7b" : String).data = ['a'] ++ '\"' :: ['b', '\x7b'] ∧
    cleanedLine "a\"b\x7b" = stripQuoted ['a'] ++ '\"' :: ['b', '\x7b'] ∧
    (count_braces_ignoring_strings "a\"b\x7b").1 =
      braceDelta (stripQuoted ['a']) + braceDelta ['b', '\x7b'] ∧
    ((count_braces_ignoring_strings "a\"b\x7b").2 = true ↔
      ('\x7b' ∈ stripQuoted ['a'] ∨ '\x7b' ∈ ['b', '\x7b'])) :=
  ⟨by decide, c10_unterminated_quote "a\"b\x7b" ['a'] ['b', '\x7b']
    (by decide) (by decide) (by decide)⟩

/-- C5: the claim that no exception escapes the per-record boundary is
wrong on the code.  The buffer text is valid JSON, so `json.loads`
returns the object with a numeric `questions` field; `is_valid_record`
then evaluates `len(data['questions'])` (original.py line 56), raising a
`TypeError`; the surrounding handler (line 257) catches only
`json.JSONDecodeError`, so the exception escapes `process_file` and
aborts the run instead of proceeding to the next line. -/
theorem c5_validator_exception_escapes :
    is_valid_record (.obj [("company", .num 1), ("questions", .num 5)]) = none ∧
    handleClosedBuffer (some (.obj [("company", .num 1), ("questions", .num 5)])) true =
      .error "TypeError" ∧
    handleClosedBuffer (some (.obj [("company", .num 1), ("questions", .num 5)])) false =
      .error "TypeError" :=
  ⟨rfl, rfl, rfl⟩

/-- C6 counterexample: a non-empty title all of whose characters are
removed by sanitization yields the empty string, not "Untitled": the
fallback at original.py line 22 fires only when the input itself is
empty, before sanitization. -/
theorem c6_counterexample :
    clean_filename "!" = "" ∧ clean_filename "!" ≠ "Untitled" :=
  ⟨rfl, by decide⟩

/-- C6 (amended): clean_filename keeps only word characters, whitespace
and hyphens and trims the result to at most 100 characters, but the
"Untitled" fallback applies only to an empty input; a non-empty input
whose characters are all removed by sanitization yields the empty
string. -/
theorem c6_amended :
    (∀ (t : String) (c : Char), c ∈ (clean_filename t).data → keepChar c = true) ∧
    (∀ t : String, (clean_filename t).length ≤ 100) ∧
    clean_filename "" = "Untitled" ∧
    (∀ t : String, t ≠ "" → (∀ c ∈ t.data, keepChar c = false) →
      clean_filename t = "") := by
  refine ⟨?_, ?_, rfl, ?_⟩
  · intro t c h
    by_cases ht : t = ""
    · subst ht
      have hall : ∀ x ∈ ("Untitled" : String).data, keepChar x = true := by decide
      exact hall c h
    · rw [clean_filename, if_neg ht] at h
      have h1 : c ∈ pyStripList (t.data.filter keepChar) :=
        List.Sublist.mem h (List.take_sublist 100 _)
      have h2 : c ∈ t.data.filter keepChar := mem_of_mem_pyStripList h1
      exact (List.mem_filter.mp h2).2
  · intro t
    by_cases ht : t = ""
    · subst ht; decide
    · rw [clean_filename, if_neg ht]
      exact List.length_take_le 100 _
  · intro t ht hall
    rw [clean_filename, if_neg ht]
    have hfil : t.data.filter keepChar = [] :=
      List.filter_eq_nil_iff.mpr (fun a ha => by simp [hall a ha])
    rw [hfil]
    rfl

/-- C6 witness: the amended facts at concrete inputs — a surviving
character is in the kept class, and an input of only removed characters
maps to the empty string. -/
theorem c6_amended_witness :
    keepChar 'a' = true ∧ clean_filename "!?" = "" :=
  ⟨c6_amended.1 "a b" 'a' (by decide),
   c6_amended.2.2.2 "!?" (by decide) (by decide)⟩

theorem allocateAux_spec (existing : List String) (safe : String) :
    ∀ (fuel n : Nat) (p : String), allocateAux existing safe fuel n = some p →
      p ∉ existing ∧ ∃ k, p = fnameCandidate safe (n + k) ∧
        ∀ j, j < k → fnameCandidate safe (n + j) ∈ existing := by
  intro fuel
  induction fuel with
  | zero => intro n p h; simp [allocateAux] at h
  | succ fuel ih =>
    intro n p h
    simp only [allocateAux] at h
    by_cases hex : fnameCandidate safe n ∈ existing
    · rw [if_pos hex] at h
      obtain ⟨hnp, k, hk, hall⟩ := ih (n + 1) p h
      refine ⟨hnp, k + 1, ?_, ?_⟩
      · rw [show n + (k + 1) = n + 1 + k from by omega]
        exact hk
      · intro j hj
        cases j with
        | zero => simpa using hex
        | succ j2 =>
          have hmem := hall j2 (by omega)
          rw [show n + (j2 + 1) = n + 1 + j2 from by omega]
          exact hmem
    · rw [if_neg hex] at h
      injection h with h
      subst h
      exact ⟨hex, 0, by simp, fun j hj => absurd hj (Nat.not_lt_zero j)⟩

/-- C7: when the allocator returns a path it is the first candidate of
the probe sequence sanitized-title.pdf, _1, _2, ... that is not among
the existing files — every earlier candidate exists and the returned one
does not, so no existing file is ever chosen; concretely, with an empty
directory the first record with title "Title" gets Title.pdf, and with
Title.pdf already present the next gets Title_1.pdf, giving first-seen
order for two records that sanitize alike in one run. -/
theorem c7_allocator :
    (∀ (existing : List String) (safe p : String),
      allocate existing safe = some p →
      p ∉ existing ∧ ∃ k, p = fnameCandidate safe k ∧
        ∀ j, j < k → fnameCandidate safe j ∈ existing) ∧
    allocate [] "Title" = some "Title.pdf" ∧
    allocate ["Title.pdf"] "Title" = some "Title_1.pdf" := by
  refine ⟨?_, by decide, by decide⟩
  intro existing safe p h
  obtain ⟨hnp, k, hk, hall⟩ := allocateAux_spec existing safe _ 0 p h
  refine ⟨hnp, k, by simpa using hk, fun j hj => by simpa using hall j hj⟩

/-- C7 witness: with Title.pdf present, the allocator returns
Title_1.pdf, which is not among the existing files, and every earlier
candidate of the probe sequence is. -/
theorem c7_allocator_witness :
    "Title_1.pdf" ∉ ["Title.pdf"] ∧
    ∃ k, "Title_1.pdf" = fnameCandidate "Title" k ∧
      ∀ j, j < k → fnameCandidate "Title" j ∈ ["Title.pdf"] :=
  c7_allocator.1 ["Title.pdf"] "Title" "Title_1.pdf" (by decide)

/-- C4 counterexample: the claimed iff fails on a record whose
`questions` field is a non-empty mapping rather than a sequence:
`is_valid_record` tests `len(data['questions']) > 0`, which a one-entry
dict satisfies, so the code returns true while the claim's condition
(non-empty *sequence*, spelled out by `specIsValid`) is false. -/
theorem c4_counterexample :
    is_valid_record exampleDictQuestions = some true ∧
    specIsValid exampleDictQuestions = false :=
  ⟨rfl, rfl⟩

/-- C4 (amended): whenever `is_valid_record` returns (rather than
raising), it returns true iff the value is a non-empty mapping and
(its `name` field is present and truthy, or its `company` field is
present and its `questions` field is a value of positive Python length —
a non-empty sequence, string, or mapping); and the claim's concrete
examples behave as stated: the empty object and the empty-questions
object yield false, the one-question object yields true. -/
theorem c4_amended :
    (∀ (v : JsonValue) (b : Bool), is_valid_record v = some b →
      (b = true ↔ ∃ fs, v = JsonValue.obj fs ∧ fs ≠ [] ∧
        ((∃ x, lookupField fs "name" = some x ∧ pyTruthy x = true) ∨
         ((lookupField fs "company").isSome = true ∧
          ∃ q n, lookupField fs "questions" = some q ∧ pyLen q = some n ∧ 0 < n)))) ∧
    is_valid_record (.obj []) = some false ∧
    is_valid_record exampleEmptyQuestions = some false ∧
    is_valid_record exampleOneQuestion = some true := by
  refine ⟨?_, rfl, rfl, rfl⟩
  intro v b hvb
  cases v with
  | null => injection hvb with hb; subst hb; simp
  | bool b2 => injection hvb with hb; subst hb; simp
  | num n => injection hvb with hb; subst hb; simp
  | str s => injection hvb with hb; subst hb; simp
  | arr xs => injection hvb with hb; subst hb; simp
  | obj fs =>
    simp only [is_valid_record] at hvb
    by_cases hemp : fs.isEmpty
    · rw [if_pos hemp] at hvb
      injection hvb with hb
      subst hb
      have hfs : fs = [] := by simpa using hemp
      subst hfs
      simp
    · rw [if_neg hemp] at hvb
      have hne : fs ≠ [] := by simpa using hemp
      cases hq : lookupField fs "questions" with
      | none =>
        simp only [hq] at hvb
        injection hvb with hb
        subst hb
        simp only [Bool.and_false, Bool.or_false]
        constructor
        · intro hb
          refine ⟨fs, rfl, hne, Or.inl ?_⟩
          cases hn : lookupField fs "name" with
          | none => simp only [hn] at hb; exact absurd hb (by simp)
          | some x => simp only [hn] at hb; exact ⟨x, rfl, hb⟩
        · rintro ⟨fs2, hfs2, -, hdisj⟩
          injection hfs2 with hfs2
          subst hfs2
          rcases hdisj with ⟨x, hx, htr⟩ | ⟨-, q, n, hqq, -, -⟩
          · simp only [hx]
            exact htr
          · rw [hq] at hqq
            exact absurd hqq (by simp)
      | some q =>
        simp only [hq] at hvb
        cases hl : pyLen q with
        | none => rw [hl] at hvb; exact absurd hvb (by simp)
        | some n =>
          rw [hl] at hvb
          injection hvb with hb
          subst hb
          constructor
          · intro hb
            refine ⟨fs, rfl, hne, ?_⟩
            rcases Bool.or_eq_true_iff.mp hb with h1 | h2
            · cases hn : lookupField fs "name" with
              | none => simp only [hn] at h1; exact absurd h1 (by simp)
              | some x => simp only [hn] at h1; exact Or.inl ⟨x, rfl, h1⟩
            · obtain ⟨hc, hd⟩ := Bool.and_eq_true_iff.mp h2
              exact Or.inr ⟨hc, q, n, hq, hl, of_decide_eq_true hd⟩
          · rintro ⟨fs2, hfs2, -, hdisj⟩
            injection hfs2 with hfs2
            subst hfs2
            rcases hdisj with ⟨x, hx, htr⟩ | ⟨hc, q2, n2, hq2, hl2, hn2⟩
            · simp only [hx]
              simp [htr]
            · rw [hq] at hq2
              injection hq2 with hq2
              subst hq2
              rw [hl] at hl2
              injection hl2 with hl2
              subst hl2
              simp [hc, hn2]

/-- C4 witness: the amended characterization evaluated at the
one-question example record, where the validator returns true. -/
theorem c4_amended_witness :
    (true = true ↔ ∃ fs, exampleOneQuestion = JsonValue.obj fs ∧ fs ≠ [] ∧
      ((∃ x, lookupField fs "name" = some x ∧ pyTruthy x = true) ∨
       ((lookupField fs "company").isSome = true ∧
        ∃ q n, lookupField fs "questions" = some q ∧ pyLen q = some n ∧ 0 < n))) :=
  c4_amended.1 exampleOneQuestion true rfl

end ConnectwiseExporter
